import Mathlib

/-!
# OpenGL_Flightsim: flight model and clipmap mesh generation

A shallow embedding of `src/OpenGL_Flightsim/flightmodel.h` (`Airfoil`, `Engine`,
`Wing`, `Aircraft`) and of `generate_mesh` from `src/OpenGL_Flightsim/clipmap.h`.

Conventions of the embedding:

* `float` is an exact ordered field `α` (evaluated at `ℚ`, and at `ℝ` where a square
  root is needed); rounding, infinities and NaN are outside the model.
* `int` is 32 bits wide. The conversion of a floating value to `int` truncates toward
  zero when the result is representable and is undefined otherwise; see
  `static_cast_int`. Integer arithmetic on loop counters and sizes is carried out on
  mathematical integers.
* `std::vector` is `List`; a read `v[i]` outside the vector is undefined behaviour.
* A call ends in an `Outcome`: a value, a reported error, or undefined behaviour.
* `phi.h` and `data.h` are not among the sources: the library functions and constants
  they provide are modelled from the specification or taken as parameters, each marked
  in its doc comment.
-/

set_option autoImplicit false
set_option linter.unusedSectionVars false

namespace Flightsim

/-! ## Vectors (`glm::vec3`) -/

/-- Three-component vector, the embedding of `glm::vec3`. -/
structure Vec3 (α : Type) where
  x : α
  y : α
  z : α
deriving DecidableEq, Repr

namespace Vec3

variable {α : Type}

/-- Component-wise sum, `a + b` on `glm::vec3`. -/
def add [Add α] (a b : Vec3 α) : Vec3 α := ⟨a.x + b.x, a.y + b.y, a.z + b.z⟩

/-- Component-wise negation, `-a` on `glm::vec3`. -/
def neg [Neg α] (a : Vec3 α) : Vec3 α := ⟨-a.x, -a.y, -a.z⟩

/-- Vector times scalar, `a * s` on `glm::vec3`. -/
def scale [Mul α] (a : Vec3 α) (s : α) : Vec3 α := ⟨a.x * s, a.y * s, a.z * s⟩

/-- Dot product, `glm::dot`. -/
def dot [Add α] [Mul α] (a b : Vec3 α) : α := a.x * b.x + a.y * b.y + a.z * b.z

/-- Cross product, `glm::cross`. -/
def cross [Sub α] [Mul α] (a b : Vec3 α) : Vec3 α :=
  ⟨a.y * b.z - b.y * a.z, a.z * b.x - b.z * a.x, a.x * b.y - b.x * a.y⟩

/-- Euclidean length, `glm::length(v) = sqrt(dot(v, v))`, over a given square root. -/
def length [Add α] [Mul α] (sqrt : α → α) (v : Vec3 α) : α := sqrt (dot v v)

/-- Normalisation, `glm::normalize(v) = v * inversesqrt(dot(v, v))`, over a given
square root. -/
def normalize [Add α] [Mul α] [One α] [Div α] (sqrt : α → α) (v : Vec3 α) : Vec3 α :=
  scale v (1 / sqrt (dot v v))

end Vec3

/-! ## `phi::utils` helpers -/

section Scalar

variable {α : Type} [LinearOrderedField α] [FloorRing α]

/-- Modelled from the spec: `phi::utils::scale` (phi.h is not among the sources), the
linear map of `[in_min, in_max]` onto `[out_min, out_max]`. -/
def scale (input in_min in_max out_min out_max : α) : α :=
  (input - in_min) * (out_max - out_min) / (in_max - in_min) + out_min

/-- Modelled from the spec: `phi::utils::clamp` (phi.h is not among the sources), which
clamps `value` into `[lo, hi]`. -/
def clamp (value lo hi : Int) : Int := min (max value lo) hi

/-- The least value of a 32-bit `int`. -/
def INT_MIN : Int := -2 ^ 31

/-- The greatest value of a 32-bit `int`. -/
def INT_MAX : Int := 2 ^ 31 - 1

/-- The integer `z` is representable as a 32-bit `int`. -/
def int_representable (z : Int) : Prop := INT_MIN ≤ z ∧ z ≤ INT_MAX

instance (z : Int) : Decidable (int_representable z) := by
  unfold int_representable
  infer_instance

/-- Truncation toward zero of a floating value. -/
def trunc (x : α) : Int := if 0 ≤ x then ⌊x⌋ else ⌈x⌉

/-- The conversion `static_cast<int>(x)` of a floating value to a 32-bit `int`: truncation
toward zero when the truncated value is representable. Otherwise C++ leaves the behaviour
undefined; the embedding then takes `INT_MIN`, the value the x86 conversion instruction
delivers for every operand out of range. -/
def static_cast_int (x : α) : Int :=
  if int_representable (trunc x) then trunc x else INT_MIN

/-! ## Airfoil -/

/-- Modelled from the spec: `ValueTuple` of data.h (not among the sources), one sample
of an airfoil polar: angle of attack, lift coefficient, drag coefficient. -/
structure ValueTuple (α : Type) where
  alpha : α
  cl : α
  cd : α
deriving DecidableEq, Repr

/-- The fields of `struct Airfoil`. -/
structure Airfoil (α : Type) where
  min : α
  max : α
  data : List (ValueTuple α)
deriving DecidableEq, Repr

/-- How a call ends: it returns a value, it reports an error (a failed assertion or an
error result), or its behaviour is undefined. -/
inductive Outcome (β : Type) where
  | value (result : β)
  | error
  | undefined
deriving DecidableEq, Repr

/-- A read `v[i]` of a `std::vector`; `none` when `i` is outside the vector, where C++
leaves the behaviour undefined. -/
def vecRead (v : List (ValueTuple α)) (i : Int) : Option (ValueTuple α) :=
  if 0 ≤ i then v.get? i.toNat else none

/-- The expression `v.size() - 1` for a vector of `size` elements, computed in
`std::size_t`: the difference wraps to `2^64 - 1` for an empty vector. -/
def size_minus_one (size : Nat) : Int := if size = 0 then 2 ^ 64 - 1 else (size : Int) - 1

/-- The constructor `Airfoil::Airfoil(curve_data)`: it copies the samples and reads
`curve_data[0]` and `curve_data[curve_data.size() - 1]`. It has no check, assertion or
error result; when one of the two reads is outside the vector its behaviour is
undefined. -/
def Airfoil.construct (curve_data : List (ValueTuple α)) : Outcome (Airfoil α) :=
  match vecRead curve_data 0, vecRead curve_data (size_minus_one curve_data.length) with
  | some first, some last =>
    Outcome.value { data := curve_data, min := first.alpha, max := last.alpha }
  | _, _ => Outcome.undefined

/-- The index computed by the first two statements of `Airfoil::sample`: scale, convert
to `int`, clamp. `static_cast<int>(data.size() - 1U)` is `size - 1`, and `-1` for an empty
table (the unsigned difference wraps and converts back to `-1`). -/
def Airfoil.index (a : Airfoil α) (alpha : α) : Int :=
  let index := static_cast_int (scale alpha a.min a.max 0 (a.data.length : α))
  clamp index 0 ((a.data.length : Int) - 1)

/-- The method `Airfoil::sample(alpha)`; `none` is the `assert(false)` branch. -/
def Airfoil.sample (a : Airfoil α) (alpha : α) : Option (α × α) :=
  let index := a.index alpha
  if ¬ (0 ≤ index ∧ index < (a.data.length : Int)) then
    none
  else
    (a.data.get? index.toNat).map fun t => (t.cl, t.cd)


/-! ## What `<cmath>`, glm and phi.h provide -/

/-- The functions and constants the flight model takes from outside its own file:
`sqrt`, `asin`, `sin`, `cos` of `<cmath>`/glm, which have no exact counterpart on a
field, and `phi::FORWARD`, `phi::epsilon`, `phi::rho`, `phi::units::kilometer_per_hour`
of phi.h, which is not among the sources. They are parameters of the embedding. -/
structure Env (α : Type) where
  sqrt : α → α
  asin : α → α
  sin : α → α
  cos : α → α
  FORWARD : Vec3 α
  epsilon : α
  rho : α
  kilometer_per_hour : α → α

/-- Modelled from the spec: `phi::sq` (phi.h is not among the sources), the square of its
argument (`speed^2` in the dynamic pressure term). -/
def sq (x : α) : α := x * x

/-- The conversion `glm::radians(degrees)`, a multiplication by glm's literal constant. -/
def radians (degrees : α) : α :=
  degrees * ((1745329251994329576923690768489 : α) / 10 ^ 32)

/-- The conversion `glm::degrees(radians)`, a multiplication by glm's literal constant. -/
def degrees (radians : α) : α :=
  radians * ((57295779513082320876798154814105 : α) / 10 ^ 30)

/-- The vector `glm::vec3(glm::rotate(glm::mat4(1.0f), angle, axis) * glm::vec4(v, 1.0f))`:
`v` turned by `angle` about `axis`, with the entries of glm's rotation matrix. -/
def rotate (E : Env α) (angle : α) (axis v : Vec3 α) : Vec3 α :=
  let c := E.cos angle
  let s := E.sin angle
  let a := Vec3.normalize E.sqrt axis
  let temp := Vec3.scale a (1 - c)
  let r00 := c + temp.x * a.x
  let r01 := temp.x * a.y + s * a.z
  let r02 := temp.x * a.z - s * a.y
  let r10 := temp.y * a.x - s * a.z
  let r11 := c + temp.y * a.y
  let r12 := temp.y * a.z + s * a.x
  let r20 := temp.z * a.x + s * a.y
  let r21 := temp.z * a.y - s * a.x
  let r22 := c + temp.z * a.z
  ⟨r00 * v.x + r10 * v.y + r20 * v.z,
   r01 * v.x + r11 * v.y + r21 * v.z,
   r02 * v.x + r12 * v.y + r22 * v.z⟩

/-! ## The rigid body, seen from the flight model -/

/-- A call made on a `phi::RigidBody`. -/
inductive Call (α : Type) where
  | get_point_velocity (point : Vec3 α)
  | add_force_at_point (force point : Vec3 α)
  | add_relative_force (force : Vec3 α)
  | add_relative_torque (torque : Vec3 α)
  | update (dt : α)
deriving DecidableEq, Repr

/-- Modelled from the spec: the interface of `phi::RigidBody` (phi.h is not among the
sources), over an arbitrary state type `RB`. Following the spec, `get_point_velocity`
is a query that leaves the body as it is and the other methods return the new state;
`velocity` and `position` are the two fields read by the telemetry line. -/
structure RigidBodyOps (α RB : Type) where
  get_point_velocity : RB → Vec3 α → Vec3 α
  add_force_at_point : RB → Vec3 α → Vec3 α → RB
  add_relative_force : RB → Vec3 α → RB
  add_relative_torque : RB → Vec3 α → RB
  update : RB → α → RB
  velocity : RB → Vec3 α
  position : RB → Vec3 α

/-- A rigid body together with the calls made on it so far, oldest first. -/
structure Traced (α RB : Type) where
  state : RB
  calls : List (Call α)

variable {RB : Type}

/-- The call `rigid_body.get_point_velocity(point)`: the velocity, and the body with the
call recorded. -/
def Traced.get_point_velocity (ops : RigidBodyOps α RB) (b : Traced α RB) (point : Vec3 α) :
    Vec3 α × Traced α RB :=
  (ops.get_point_velocity b.state point,
   { b with calls := b.calls ++ [Call.get_point_velocity point] })

/-- The call `rigid_body.add_force_at_point(force, point)`. -/
def Traced.add_force_at_point (ops : RigidBodyOps α RB) (b : Traced α RB)
    (force point : Vec3 α) : Traced α RB :=
  { state := ops.add_force_at_point b.state force point
    calls := b.calls ++ [Call.add_force_at_point force point] }

/-- The call `rigid_body.add_relative_force(force)`. -/
def Traced.add_relative_force (ops : RigidBodyOps α RB) (b : Traced α RB)
    (force : Vec3 α) : Traced α RB :=
  { state := ops.add_relative_force b.state force
    calls := b.calls ++ [Call.add_relative_force force] }

/-- The call `rigid_body.update(dt)`. -/
def Traced.update (ops : RigidBodyOps α RB) (b : Traced α RB) (dt : α) : Traced α RB :=
  { state := ops.update b.state dt
    calls := b.calls ++ [Call.update dt] }

/-! ## Engine -/

/-- The fields of `struct Engine`. -/
structure Engine (α : Type) where
  throttle : α
  thrust : α
  horsepower : α
  rpm : α
deriving DecidableEq, Repr

/-- The constructor `Engine::Engine(engine_thrust)` with the default member values. -/
def Engine.construct (engine_thrust : α) : Engine α :=
  { throttle := 1 / 2, thrust := engine_thrust, horsepower := 1000, rpm := 2400 }

/-- The method `Engine::apply_forces(rigid_body)`: the engine and the rigid body after the
call. -/
def Engine.apply_forces (ops : RigidBodyOps α RB) (e : Engine α) (rigid_body : Traced α RB) :
    Engine α × Traced α RB :=
  (e, Traced.add_relative_force ops rigid_body ⟨e.thrust * e.throttle, 0, 0⟩)

/-! ## Wing -/

/-- The fields of `struct Wing`; the `const Airfoil *` is the table it points to. -/
structure Wing (α : Type) where
  area : α
  position : Vec3 α
  airfoil : Airfoil α
  normal : Vec3 α
  lift_multiplier : α
  drag_multiplier : α
  deflection : α

/-- The constructor `Wing(position, area, aero, normal)`. -/
def Wing.construct (position : Vec3 α) (area : α) (aero : Airfoil α) (normal : Vec3 α) :
    Wing α :=
  { area := area, position := position, airfoil := aero, normal := normal,
    lift_multiplier := 1, drag_multiplier := 1, deflection := 0 }

/-- The constructor `Wing(position, wingspan, chord, aero, normal)`. -/
def Wing.construct_span (position : Vec3 α) (wingspan chord : α) (aero : Airfoil α)
    (normal : Vec3 α) : Wing α :=
  { area := chord * wingspan, position := position, airfoil := aero, normal := normal,
    lift_multiplier := 1, drag_multiplier := 1, deflection := 0 }

/-- The local `drag_direction` of `Wing::apply_forces`: `glm::normalize(-local_velocity)`. -/
def drag_direction (sqrt : α → α) (local_velocity : Vec3 α) : Vec3 α :=
  Vec3.normalize sqrt (Vec3.neg local_velocity)

/-- The local `lift_direction` of `Wing::apply_forces`:
`glm::normalize(glm::cross(glm::cross(drag_direction, wing_normal), drag_direction))`. -/
def lift_direction (sqrt : α → α) (drag_direction wing_normal : Vec3 α) : Vec3 α :=
  Vec3.normalize sqrt (Vec3.cross (Vec3.cross drag_direction wing_normal) drag_direction)

/-- The local `wing_normal` of `Wing::apply_forces`: the normal, rotated by the deflection
about `normalize(cross(FORWARD, normal))` when `abs(deflection) > epsilon`. -/
def Wing.wing_normal (E : Env α) (w : Wing α) : Vec3 α :=
  if |w.deflection| > E.epsilon then
    let axis := Vec3.normalize E.sqrt (Vec3.cross E.FORWARD w.normal)
    rotate E (radians w.deflection) axis w.normal
  else
    w.normal

/-- The method `Wing::apply_forces(rigid_body)`: the rigid body after the call, or `none`
when the `assert(false)` of `Airfoil::sample` is reached. -/
def Wing.apply_forces (E : Env α) (ops : RigidBodyOps α RB) (w : Wing α)
    (rigid_body : Traced α RB) : Option (Traced α RB) :=
  let (local_velocity, rigid_body) := Traced.get_point_velocity ops rigid_body w.position
  let speed := Vec3.length E.sqrt local_velocity
  if speed ≤ 0 ∨ w.area ≤ 0 then
    some rigid_body
  else
    let wing_normal := w.wing_normal E
    let drag_direction := drag_direction E.sqrt local_velocity
    let lift_direction := lift_direction E.sqrt drag_direction wing_normal
    let angle_of_attack := degrees (E.asin (Vec3.dot drag_direction wing_normal))
    match w.airfoil.sample angle_of_attack with
    | none => none
    | some (lift_coefficient, drag_coefficient) =>
      let tmp := sq speed * E.rho * w.area * (1 / 2)
      let lift :=
        Vec3.scale (Vec3.scale (Vec3.scale lift_direction lift_coefficient) w.lift_multiplier) tmp
      let drag :=
        Vec3.scale (Vec3.scale (Vec3.scale drag_direction drag_coefficient) w.drag_multiplier) tmp
      some (Traced.add_force_at_point ops rigid_body (Vec3.add lift drag) w.position)

/-! ## Aircraft -/

/-- The fields of `struct Aircraft`; `joystick` is (roll, yaw, pitch). -/
structure Aircraft (α RB : Type) where
  engine : Engine α
  elements : List (Wing α)
  rigid_body : Traced α RB
  joystick : Vec3 α
  log_timer : α

/-- The values printed by the telemetry `printf` of `Aircraft::update`: speed in km/h,
throttle, altitude. -/
structure Telemetry (α : Type) where
  speed_kmh : α
  throttle : α
  altitude : α
deriving DecidableEq, Repr

/-- The assignment `elements[i].deflection = d`. -/
def set_deflection (elements : List (Wing α)) (i : Nat) (d : α) : List (Wing α) :=
  elements.modify (fun wing => { wing with deflection := d }) i

/-- The control mapping at the head of `Aircraft::update` (the `#if 1` branch): the
surface list after the four deflection assignments. -/
def Aircraft.control_mapping (ac : Aircraft α RB) : List (Wing α) :=
  let roll := ac.joystick.x
  let yaw := ac.joystick.y
  let pitch := ac.joystick.z
  let max_elevator_deflection : α := 5
  let max_aileron_deflection : α := 15
  let max_rudder_deflection : α := 5
  let aileron_deflection := roll * max_aileron_deflection
  let elements := set_deflection ac.elements 1 aileron_deflection
  let elements := set_deflection elements 2 (-aileron_deflection)
  let elements := set_deflection elements 4 (-(pitch * max_elevator_deflection))
  set_deflection elements 5 (yaw * max_rudder_deflection)

/-- The method `Aircraft::update(dt)`: the aircraft after the call and the telemetry line
if one was printed, or `none` when an `assert(false)` is reached on the way. -/
def Aircraft.update (E : Env α) (ops : RigidBodyOps α RB) (ac : Aircraft α RB) (dt : α) :
    Option (Aircraft α RB × Option (Telemetry α)) :=
  let elements := ac.control_mapping
  match elements.foldlM (fun rigid_body wing => wing.apply_forces E ops rigid_body)
      ac.rigid_body with
  | none => none
  | some rigid_body =>
    let (engine, rigid_body) := ac.engine.apply_forces ops rigid_body
    let log_timer := ac.log_timer + dt
    let (log_timer, printed) :=
      if log_timer > 1 / 2 then
        ((0 : α), some
          { speed_kmh := E.kilometer_per_hour (Vec3.length E.sqrt (ops.velocity rigid_body.state))
            throttle := engine.throttle
            altitude := (ops.position rigid_body.state).y })
      else
        (log_timer, none)
    let rigid_body := Traced.update ops rigid_body dt
    some ({ engine := engine, elements := elements, rigid_body := rigid_body,
            joystick := ac.joystick, log_timer := log_timer }, printed)

/-! ## Clipmap mesh (`clipmap.h`) -/

/-- Following the spec's words ("nearest-lower-bound"): `t` is the sample of `data` with
the greatest tabulated angle that is `<= alpha`. -/
def IsNearestLowerBound (data : List (ValueTuple α)) (alpha : α) (t : ValueTuple α) : Prop :=
  t ∈ data ∧ t.alpha ≤ alpha ∧ ∀ u ∈ data, u.alpha ≤ alpha → u.alpha ≤ t.alpha

/-- Following the spec's words: the angles of `data` are uniformly spaced and strictly
ascending, starting at `first` with step `step > 0`. -/
def UniformlySpaced (data : List (ValueTuple α)) (first step : α) : Prop :=
  0 < step ∧ ∀ i : Fin data.length, (data.get i).alpha = first + (i.val : α) * step

instance (data : List (ValueTuple α)) (alpha : α) (t : ValueTuple α) :
    Decidable (IsNearestLowerBound data alpha t) := by
  unfold IsNearestLowerBound
  infer_instance

instance (data : List (ValueTuple α)) (first step : α) :
    Decidable (UniformlySpaced data first step) := by
  unfold UniformlySpaced
  infer_instance

end Scalar

/-! ## A concrete rigid body and environment, for evaluating the model -/

/-- Modelled from the spec: the state of `phi::RigidBody` (phi.h is not among the
sources) as the spec lists it: mass, inverse inertia tensor (by rows), position, linear
and angular velocity, and the net force and net torque accumulators. The orientation is
left out: forces are accumulated in the body frame. -/
structure RigidBody (α : Type) where
  mass : α
  inertia_inverse : Vec3 α × Vec3 α × Vec3 α
  position : Vec3 α
  velocity : Vec3 α
  angular_velocity : Vec3 α
  force : Vec3 α
  torque : Vec3 α
deriving DecidableEq, Repr

/-- Modelled from the spec: the operations of `phi::RigidBody` as the spec words them:
`add_force_at_point` adds the force and the torque `cross(point, force)`,
`get_point_velocity` is `velocity + cross(angular_velocity, point)`, `update` integrates
one explicit Euler step and zeroes both accumulators. -/
def RigidBody.ops {α : Type} [Field α] : RigidBodyOps α (RigidBody α) where
  get_point_velocity rb point :=
    Vec3.add rb.velocity (Vec3.cross rb.angular_velocity point)
  add_force_at_point rb force point :=
    { rb with force := Vec3.add rb.force force
              torque := Vec3.add rb.torque (Vec3.cross point force) }
  add_relative_force rb force := { rb with force := Vec3.add rb.force force }
  add_relative_torque rb torque := { rb with torque := Vec3.add rb.torque torque }
  update rb dt :=
    let velocity := Vec3.add rb.velocity (Vec3.scale (Vec3.scale rb.force (1 / rb.mass)) dt)
    let position := Vec3.add rb.position (Vec3.scale velocity dt)
    let angular_acceleration : Vec3 α :=
      ⟨Vec3.dot rb.inertia_inverse.1 rb.torque, Vec3.dot rb.inertia_inverse.2.1 rb.torque,
       Vec3.dot rb.inertia_inverse.2.2 rb.torque⟩
    { rb with velocity := velocity
              position := position
              angular_velocity := Vec3.add rb.angular_velocity (Vec3.scale angular_acceleration dt)
              force := ⟨0, 0, 0⟩
              torque := ⟨0, 0, 0⟩ }
  velocity rb := rb.velocity
  position rb := rb.position

/-- An environment over `ℚ` for evaluating the model: the exact square root of rational
squares, the leading series terms in place of the trigonometric functions, and sample
values for the constants of phi.h. -/
def Env.rational : Env ℚ where
  sqrt := Rat.sqrt
  asin := fun x => x
  sin := fun x => x
  cos := fun x => 1 - x * x / 2
  FORWARD := ⟨1, 0, 0⟩
  epsilon := 1 / 100000
  rho := 1225 / 1000
  kilometer_per_hour := fun x => x * 36 / 10

/-- A two-sample airfoil table over `ℚ`: angles 0 and 10. -/
def example_airfoil : Airfoil ℚ := ⟨0, 10, [⟨0, 0, 0⟩, ⟨10, 1, 1⟩]⟩

/-- A wing of the example aircraft at `position` with the given `area`. -/
def example_wing (position : Vec3 ℚ) (area : ℚ) : Wing ℚ :=
  Wing.construct position area example_airfoil ⟨0, 1, 0⟩

/-- A rigid body over `ℚ` of mass 1 with identity inertia, at the origin, moving with
the given velocity. -/
def example_body (velocity : Vec3 ℚ) : Traced ℚ (RigidBody ℚ) where
  state :=
    { mass := 1
      inertia_inverse := (⟨1, 0, 0⟩, ⟨0, 1, 0⟩, ⟨0, 0, 1⟩)
      position := ⟨0, 0, 0⟩
      velocity := velocity
      angular_velocity := ⟨0, 0, 0⟩
      force := ⟨0, 0, 0⟩
      torque := ⟨0, 0, 0⟩ }
  calls := []

/-- An aircraft over `ℚ` with six surfaces, full roll and pitch input (`joystick` is
`(1, 0, 1)`), every surface deflected by 3 degrees beforehand. -/
def example_aircraft : Aircraft ℚ (RigidBody ℚ) where
  engine := Engine.construct 100
  elements := (List.range 6).map fun (i : Nat) =>
    { example_wing ⟨(i : ℚ), 0, 0⟩ 2 with deflection := 3 }
  rigid_body := example_body ⟨3, 0, 4⟩
  joystick := ⟨1, 0, 1⟩
  log_timer := 1

section Theorems

variable {α : Type} [LinearOrderedField α] [FloorRing α] {RB : Type}

/-! ## Theorems: the airfoil table -/

theorem trunc_of_nonneg {x : α} (hx : 0 ≤ x) : trunc x = ⌊x⌋ := by
  unfold trunc
  rw [if_pos hx]

theorem static_cast_int_of_representable {x : α} (h : int_representable (trunc x)) :
    static_cast_int x = trunc x := by
  unfold static_cast_int
  rw [if_pos h]

theorem static_cast_int_of_nonneg {x : α} (hx : 0 ≤ x) (hr : ⌊x⌋ ≤ INT_MAX) :
    static_cast_int x = ⌊x⌋ := by
  have h0 : 0 ≤ ⌊x⌋ := Int.floor_nonneg.mpr hx
  rw [static_cast_int_of_representable, trunc_of_nonneg hx]
  rw [trunc_of_nonneg hx]
  refine ⟨?_, hr⟩
  unfold INT_MIN
  omega

theorem clamp_zero_mem (v hi : Int) (hhi : 0 ≤ hi) : 0 ≤ clamp v 0 hi ∧ clamp v 0 hi ≤ hi := by
  unfold clamp
  constructor
  · exact le_min (le_max_right _ _) hhi
  · exact min_le_right _ _

theorem clamp_of_ge (v hi : Int) (hv : hi ≤ v) (hhi : 0 ≤ hi) : clamp v 0 hi = hi := by
  unfold clamp
  rw [max_eq_left (hhi.trans hv), min_eq_right hv]

theorem clamp_of_mem (v hi : Int) (h0 : 0 ≤ v) (hv : v ≤ hi) : clamp v 0 hi = v := by
  unfold clamp
  rw [max_eq_left h0, min_eq_left hv]

theorem Airfoil.sample_of_index (a : Airfoil α) (alpha : α) (i : Nat)
    (hi : i < a.data.length) (h : a.index alpha = (i : Int)) :
    a.sample alpha = some (a.data[i].cl, a.data[i].cd) := by
  unfold Airfoil.sample
  simp [h, hi]

theorem Airfoil.index_mem (a : Airfoil α) (alpha : α) (hne : a.data ≠ []) :
    0 ≤ a.index alpha ∧ a.index alpha < (a.data.length : Int) := by
  have hpos : 0 < a.data.length := List.length_pos.mpr hne
  have h : 0 ≤ a.index alpha ∧ a.index alpha ≤ (a.data.length : Int) - 1 :=
    clamp_zero_mem
      (static_cast_int (scale alpha a.min a.max 0 (a.data.length : α)))
      ((a.data.length : Int) - 1) (by omega)
  constructor
  · exact h.1
  · have := h.2
    omega

theorem Airfoil.sample_isSome (a : Airfoil α) (alpha : α) (hne : a.data ≠ []) :
    ∃ i : Nat, ∃ hi : i < a.data.length, a.index alpha = (i : Int) ∧
      a.sample alpha = some (a.data[i].cl, a.data[i].cd) := by
  obtain ⟨h0, h1⟩ := a.index_mem alpha hne
  refine ⟨(a.index alpha).toNat, by omega, by omega, ?_⟩
  exact a.sample_of_index alpha _ (by omega) (by omega)

theorem construct_fields (curve_data : List (ValueTuple α))
    (a : Airfoil α) (hc : Airfoil.construct curve_data = Outcome.value a)
    (hpos : 0 < curve_data.length) :
    a.data = curve_data ∧ a.min = (curve_data.get ⟨0, hpos⟩).alpha ∧
    a.max = (curve_data.get ⟨curve_data.length - 1, by omega⟩).alpha := by
  have h0 : vecRead curve_data 0 = some (curve_data.get ⟨0, hpos⟩) := by
    simp [vecRead, List.getElem?_eq_getElem hpos]
  have h1 : vecRead curve_data (size_minus_one curve_data.length)
      = some (curve_data.get ⟨curve_data.length - 1, by omega⟩) := by
    have e : size_minus_one curve_data.length = ((curve_data.length - 1 : Nat) : Int) := by
      unfold size_minus_one
      rw [if_neg (by omega)]
      omega
    rw [e]
    simp [vecRead,
      List.getElem?_eq_getElem (show curve_data.length - 1 < curve_data.length by omega)]
  unfold Airfoil.construct at hc
  rw [h0, h1] at hc
  simp only [Outcome.value.injEq] at hc
  rw [← hc]
  exact ⟨rfl, rfl, rfl⟩

/-- Counterexample to C7: on the uniformly spaced table `(0, 0, 0), (10, 1, 1)` and
`alpha = 5`, inside `[min, max]`, the sample with the greatest angle `<= alpha` is the
first one, and `sample` returns the coefficients of the second. -/
theorem sample_not_nearest_lower_bound :
    UniformlySpaced ([⟨0, 0, 0⟩, ⟨10, 1, 1⟩] : List (ValueTuple ℚ)) 0 10 ∧
    Airfoil.construct ([⟨0, 0, 0⟩, ⟨10, 1, 1⟩] : List (ValueTuple ℚ))
      = Outcome.value ⟨0, 10, [⟨0, 0, 0⟩, ⟨10, 1, 1⟩]⟩ ∧
    IsNearestLowerBound ([⟨0, 0, 0⟩, ⟨10, 1, 1⟩] : List (ValueTuple ℚ)) 5 ⟨0, 0, 0⟩ ∧
    (Airfoil.mk (0 : ℚ) 10 [⟨0, 0, 0⟩, ⟨10, 1, 1⟩]).sample 5 = some (1, 1) ∧
    ¬ ∃ t, IsNearestLowerBound ([⟨0, 0, 0⟩, ⟨10, 1, 1⟩] : List (ValueTuple ℚ)) 5 t ∧
      (Airfoil.mk (0 : ℚ) 10 [⟨0, 0, 0⟩, ⟨10, 1, 1⟩]).sample 5 = some (t.cl, t.cd) := by
  have hs : (Airfoil.mk (0 : ℚ) 10 [⟨0, 0, 0⟩, ⟨10, 1, 1⟩]).sample 5 = some (1, 1) := by
    have hi : (Airfoil.mk (0 : ℚ) 10 [⟨0, 0, 0⟩, ⟨10, 1, 1⟩]).index 5 = ((1 : Nat) : Int) := by
      simp only [Airfoil.index, scale, static_cast_int, trunc, int_representable,
        INT_MIN, INT_MAX, clamp]
      norm_num
    exact Airfoil.sample_of_index _ 5 1 (by simp) hi
  refine ⟨?_, ?_, ?_, hs, ?_⟩
  · refine ⟨by norm_num, ?_⟩
    intro i
    fin_cases i <;> simp
  · simp [Airfoil.construct, vecRead, size_minus_one]
  · refine ⟨by simp, by norm_num, ?_⟩
    intro u hu hle
    simp only [List.mem_cons, List.mem_singleton, List.not_mem_nil, or_false] at hu
    rcases hu with rfl | rfl
    · norm_num
    · norm_num at hle
  · rintro ⟨t, ⟨hmem, hle, _⟩, ht⟩
    rw [hs] at ht
    simp only [List.mem_cons, List.mem_singleton, List.not_mem_nil, or_false] at hmem
    rcases hmem with rfl | rfl
    · simp at ht
    · norm_num at hle

/-- C7, amended: for a table of `n >= 2` samples with uniformly spaced, strictly ascending
angles and every `alpha` with `min <= alpha <= max`, `sample(alpha)` returns the `(cl, cd)`
of the sample at index `trunc((alpha - min) / (max - min) * n)` clamped into `[0, n - 1]`,
and that sample is either the one with the greatest tabulated angle `<= alpha` or the
next one after it in the table. The number of samples is one an `int` holds. -/
theorem sample_lower_bound_or_next (curve_data : List (ValueTuple α))
    (a : Airfoil α) (first step alpha : α)
    (hc : Airfoil.construct curve_data = Outcome.value a)
    (hn : 2 ≤ curve_data.length) (hsize : (curve_data.length : Int) ≤ INT_MAX)
    (hu : UniformlySpaced curve_data first step)
    (hlo : a.min ≤ alpha) (hhi : alpha ≤ a.max) :
    ∃ i L : Nat, ∃ (hi : i < curve_data.length) (hL : L < curve_data.length),
      (i : Int) = clamp
        (static_cast_int ((alpha - a.min) / (a.max - a.min) * (curve_data.length : α)))
        0 ((curve_data.length : Int) - 1) ∧
      a.sample alpha = some (curve_data[i].cl, curve_data[i].cd) ∧
      IsNearestLowerBound curve_data alpha curve_data[L] ∧
      (i = L ∨ i = L + 1) := by
  obtain ⟨hdata, hmin, hmax⟩ := construct_fields curve_data a hc (by omega)
  obtain ⟨hstep, hang⟩ := hu
  have hmin2 : a.min = first := by
    rw [hmin, hang ⟨0, by omega⟩]
    simp
  have h1n : 1 ≤ curve_data.length := by omega
  have hmax2 : a.max = first + ((curve_data.length : α) - 1) * step := by
    rw [hmax, hang ⟨curve_data.length - 1, by omega⟩]
    simp only
    rw [Nat.cast_sub h1n, Nat.cast_one]
  have hN : (2 : α) ≤ (curve_data.length : α) := by exact_mod_cast hn
  have hN1 : (0 : α) < (curve_data.length : α) - 1 := by linarith
  rw [hmin2] at hlo
  rw [hmax2] at hhi
  -- position of `alpha` in units of the table spacing
  have hy0 : 0 ≤ (alpha - first) / step := div_nonneg (by linarith) hstep.le
  have hy1 : (alpha - first) / step ≤ (curve_data.length : α) - 1 := by
    rw [div_le_iff₀ hstep]
    linarith
  have hfl0 : 0 ≤ ⌊(alpha - first) / step⌋ := Int.floor_nonneg.mpr hy0
  have hfl1 : ⌊(alpha - first) / step⌋ ≤ (curve_data.length : Int) - 1 := by
    have : ⌊(alpha - first) / step⌋ ≤ ⌊(((curve_data.length : Int) - 1 : Int) : α)⌋ :=
      Int.floor_mono (by push_cast; exact hy1)
    rwa [Int.floor_intCast] at this
  -- the scaled value is the position stretched by n / (n - 1)
  have hscale : (alpha - a.min) / (a.max - a.min) * (curve_data.length : α)
      = (alpha - first) / step + (alpha - first) / step / ((curve_data.length : α) - 1) := by
    rw [hmin2, hmax2]
    field_simp
    ring
  have hs_ge : (alpha - first) / step ≤
      (alpha - a.min) / (a.max - a.min) * (curve_data.length : α) := by
    rw [hscale]
    have : 0 ≤ (alpha - first) / step / ((curve_data.length : α) - 1) :=
      div_nonneg hy0 hN1.le
    linarith
  have hs_le : (alpha - a.min) / (a.max - a.min) * (curve_data.length : α)
      ≤ (alpha - first) / step + 1 := by
    rw [hscale]
    have : (alpha - first) / step / ((curve_data.length : α) - 1) ≤ 1 := by
      rw [div_le_one hN1]
      exact hy1
    linarith
  have hs0 : 0 ≤ (alpha - a.min) / (a.max - a.min) * (curve_data.length : α) :=
    hy0.trans hs_ge
  have hflo : ⌊(alpha - first) / step⌋ ≤
      ⌊(alpha - a.min) / (a.max - a.min) * (curve_data.length : α)⌋ := Int.floor_mono hs_ge
  have hfhi : ⌊(alpha - a.min) / (a.max - a.min) * (curve_data.length : α)⌋ ≤
      ⌊(alpha - first) / step⌋ + 1 := by
    have h2 : (alpha - a.min) / (a.max - a.min) * (curve_data.length : α)
        < ((⌊(alpha - first) / step⌋ + 2 : Int) : α) := by
      have := Int.lt_floor_add_one ((alpha - first) / step)
      push_cast
      linarith
    have := Int.floor_lt.mpr h2
    omega
  -- the index the code uses
  have hidx : a.index alpha = clamp
      (static_cast_int ((alpha - a.min) / (a.max - a.min) * (curve_data.length : α)))
      0 ((curve_data.length : Int) - 1) := by
    unfold Airfoil.index scale
    rw [hdata]
    rw [sub_zero, add_zero, div_mul_eq_mul_div]
  have hsmax : ⌊(alpha - a.min) / (a.max - a.min) * (curve_data.length : α)⌋ ≤ INT_MAX := by
    omega
  rw [static_cast_int_of_nonneg hs0 hsmax] at hidx ⊢
  have hcl := clamp_zero_mem
    ⌊(alpha - a.min) / (a.max - a.min) * (curve_data.length : α)⌋
    ((curve_data.length : Int) - 1) (by omega)
  have hLlt : ⌊(alpha - first) / step⌋.toNat < curve_data.length := by omega
  have hilt : (clamp ⌊(alpha - a.min) / (a.max - a.min) * (curve_data.length : α)⌋
      0 ((curve_data.length : Int) - 1)).toNat < curve_data.length := by omega
  refine ⟨_, ⌊(alpha - first) / step⌋.toNat, hilt, hLlt, by omega, ?_, ?_, ?_⟩
  · have := a.sample_of_index alpha _ (by rw [hdata]; exact hilt) (by rw [hidx]; omega)
    simpa [hdata] using this
  · refine ⟨List.getElem_mem _, ?_, ?_⟩
    · have := hang ⟨⌊(alpha - first) / step⌋.toNat, hLlt⟩
      simp only [List.get_eq_getElem] at this
      rw [this]
      have hc1 : ((⌊(alpha - first) / step⌋.toNat : Nat) : α) = ((⌊(alpha - first) / step⌋ : Int) : α) := by
        have : ((⌊(alpha - first) / step⌋.toNat : Nat) : Int) = ⌊(alpha - first) / step⌋ :=
          Int.toNat_of_nonneg hfl0
        exact_mod_cast this
      rw [hc1]
      have := Int.floor_le ((alpha - first) / step)
      rw [le_div_iff₀ hstep] at this
      linarith
    · intro u hu hule
      obtain ⟨j, hj, rfl⟩ := List.getElem_of_mem hu
      have hj2 := hang ⟨j, hj⟩
      have hL2 := hang ⟨⌊(alpha - first) / step⌋.toNat, hLlt⟩
      simp only [List.get_eq_getElem] at hj2 hL2
      rw [hj2] at hule ⊢
      rw [hL2]
      have hjy : ((j : Int) : α) ≤ (alpha - first) / step := by
        rw [le_div_iff₀ hstep]
        push_cast
        linarith
      have hjfl : (j : Int) ≤ ⌊(alpha - first) / step⌋ := Int.le_floor.mpr hjy
      have hjL : j ≤ ⌊(alpha - first) / step⌋.toNat := by omega
      have : (j : α) ≤ ((⌊(alpha - first) / step⌋.toNat : Nat) : α) := by exact_mod_cast hjL
      have := mul_le_mul_of_nonneg_right this hstep.le
      linarith
  · by_cases hcase : ⌊(alpha - a.min) / (a.max - a.min) * (curve_data.length : α)⌋
        ≤ (curve_data.length : Int) - 1
    · rw [clamp_of_mem _ _ (hfl0.trans hflo) hcase]
      omega
    · rw [clamp_of_ge _ _ (by omega) (by omega)]
      omega

/-- Witness for the amended C7 on the table `(0, 0, 0), (10, 1, 1)` at `alpha = 5`: the
returned sample is the one after the nearest lower bound. -/
theorem sample_lower_bound_or_next_witness :
    ∃ i L : Nat, ∃ t u : ValueTuple ℚ,
      ([⟨0, 0, 0⟩, ⟨10, 1, 1⟩] : List (ValueTuple ℚ)).get? i = some t ∧
      ([⟨0, 0, 0⟩, ⟨10, 1, 1⟩] : List (ValueTuple ℚ)).get? L = some u ∧
      (Airfoil.mk (0 : ℚ) 10 [⟨0, 0, 0⟩, ⟨10, 1, 1⟩]).sample 5 = some (t.cl, t.cd) ∧
      IsNearestLowerBound ([⟨0, 0, 0⟩, ⟨10, 1, 1⟩] : List (ValueTuple ℚ)) 5 u ∧
      (i = L ∨ i = L + 1) := by
  obtain ⟨i, L, hi, hL, _, hs, hnl, hor⟩ :=
    sample_lower_bound_or_next ([⟨0, 0, 0⟩, ⟨10, 1, 1⟩] : List (ValueTuple ℚ))
      ⟨0, 10, [⟨0, 0, 0⟩, ⟨10, 1, 1⟩]⟩ 0 10 5
      (by simp [Airfoil.construct, vecRead, size_minus_one]) (by decide)
      (by simp [INT_MAX])
      ⟨by norm_num, by intro j; fin_cases j <;> simp⟩ (by norm_num) (by norm_num)
  exact ⟨i, L, _, _, List.get?_eq_get hi, List.get?_eq_get hL, hs, hnl, hor⟩

/-! ## Theorems: engine and wing -/

theorem Wing.apply_forces_guard (E : Env α) (ops : RigidBodyOps α RB) (w : Wing α)
    (b : Traced α RB)
    (h : Vec3.length E.sqrt (ops.get_point_velocity b.state w.position) ≤ 0 ∨ w.area ≤ 0) :
    w.apply_forces E ops b =
      some { state := b.state, calls := b.calls ++ [Call.get_point_velocity w.position] } := by
  unfold Wing.apply_forces Traced.get_point_velocity
  simp only
  rw [if_pos h]

theorem Traced.add_force_at_point_calls (ops : RigidBodyOps α RB) (state : RB)
    (calls : List (Call α)) (c : Call α) (force point : Vec3 α) :
    (Traced.add_force_at_point ops { state := state, calls := calls ++ [c] } force point).calls
      = calls ++ [c, Call.add_force_at_point force point] := by
  simp [Traced.add_force_at_point]

theorem Wing.apply_forces_calls (E : Env α) (ops : RigidBodyOps α RB) (w : Wing α)
    (b b' : Traced α RB) (h : w.apply_forces E ops b = some b') :
    b'.calls = b.calls ++ [Call.get_point_velocity w.position] ∨
    ∃ force, b'.calls = b.calls ++
      [Call.get_point_velocity w.position, Call.add_force_at_point force w.position] := by
  unfold Wing.apply_forces Traced.get_point_velocity at h
  simp only at h
  split_ifs at h with hg
  · left
    rw [← Option.some.inj h]
  · right
    split at h
    · exact absurd h (by simp)
    · rw [← Option.some.inj h]
      exact ⟨_, Traced.add_force_at_point_calls ops _ _ _ _ _⟩

theorem Wing.apply_forces_isSome (E : Env α) (ops : RigidBodyOps α RB) (w : Wing α)
    (b : Traced α RB) (hne : w.airfoil.data ≠ []) : ∃ b', w.apply_forces E ops b = some b' := by
  unfold Wing.apply_forces Traced.get_point_velocity
  simp only
  split_ifs with hg
  · exact ⟨_, rfl⟩
  · obtain ⟨i, hi, _, hs⟩ := w.airfoil.sample_isSome
      (degrees (E.asin (Vec3.dot
        (drag_direction E.sqrt (ops.get_point_velocity b.state w.position)) (w.wing_normal E))))
      hne
    rw [hs]
    exact ⟨_, rfl⟩

/-- C3: if the velocity returned by `get_point_velocity(position)` has length 0, or the
wing's area is `<= 0` (at any airspeed), `apply_forces` returns having made no
`add_force_at_point` call: its only call is the velocity query, and the state of the rigid
body, net force and net torque included, is what it was before. -/
theorem wing_zero_force_guard (E : Env α) (ops : RigidBodyOps α RB) (w : Wing α)
    (b : Traced α RB)
    (h : Vec3.length E.sqrt (ops.get_point_velocity b.state w.position) = 0 ∨ w.area ≤ 0) :
    ∃ b', w.apply_forces E ops b = some b' ∧ b'.state = b.state ∧
      b'.calls = b.calls ++ [Call.get_point_velocity w.position] ∧
      ∀ force point, Call.add_force_at_point force point ∉ b'.calls.drop b.calls.length := by
  refine ⟨_, w.apply_forces_guard E ops b (h.imp le_of_eq id), rfl, rfl, ?_⟩
  intro force point
  simp

/-- Witness for C3: a wing of area 0 on a body moving at velocity `(3, 0, 4)`, and a wing
of area 2 on a body at rest. -/
theorem wing_zero_force_guard_witness :
    (∃ b', (example_wing ⟨0, 0, 0⟩ 0).apply_forces Env.rational RigidBody.ops
        (example_body ⟨3, 0, 4⟩) = some b' ∧
      b'.state = (example_body ⟨3, 0, 4⟩).state ∧
      b'.calls = [Call.get_point_velocity ⟨0, 0, 0⟩]) ∧
    (∃ b', (example_wing ⟨0, 0, 0⟩ 2).apply_forces Env.rational RigidBody.ops
        (example_body ⟨0, 0, 0⟩) = some b' ∧
      b'.state = (example_body ⟨0, 0, 0⟩).state ∧
      b'.calls = [Call.get_point_velocity ⟨0, 0, 0⟩]) := by
  constructor
  · obtain ⟨b', h1, h2, h3, _⟩ := wing_zero_force_guard Env.rational RigidBody.ops
      (example_wing ⟨0, 0, 0⟩ 0) (example_body ⟨3, 0, 4⟩)
      (Or.inr (by simp [example_wing, Wing.construct]))
    exact ⟨b', h1, h2, h3⟩
  · obtain ⟨b', h1, h2, h3, _⟩ := wing_zero_force_guard Env.rational RigidBody.ops
      (example_wing ⟨0, 0, 0⟩ 2) (example_body ⟨0, 0, 0⟩)
      (Or.inl (by
        simp [example_wing, Wing.construct, example_body, RigidBody.ops, Env.rational,
          Vec3.length, Vec3.dot, Vec3.add, Vec3.cross, Rat.sqrt]))
    exact ⟨b', h1, h2, h3⟩

/-- C4: `Engine::apply_forces` makes exactly one call on the rigid body,
`add_relative_force` with the vector `(thrust * throttle, 0, 0)`, for every thrust and
every throttle (no clamping); it makes no torque call, and on the rigid body modelled
from the spec the net torque is unchanged; the engine's fields are unchanged. -/
theorem engine_apply_forces (ops : RigidBodyOps α RB) (e : Engine α) (b : Traced α RB)
    (rb : RigidBody α) (calls : List (Call α)) :
    (e.apply_forces ops b).1 = e ∧
    (e.apply_forces ops b).2.calls =
      b.calls ++ [Call.add_relative_force ⟨e.thrust * e.throttle, 0, 0⟩] ∧
    (e.apply_forces ops b).2.state =
      ops.add_relative_force b.state ⟨e.thrust * e.throttle, 0, 0⟩ ∧
    (e.apply_forces RigidBody.ops ⟨rb, calls⟩).2.state.torque = rb.torque :=
  ⟨rfl, rfl, rfl, rfl⟩

/-! ## Theorems: the aircraft update -/

theorem set_deflection_getElem? (l : List (Wing α)) (i : Nat) (d : α) (j : Nat) :
    (set_deflection l i d)[j]? =
      (l[j]?).map (fun w => if i = j then { w with deflection := d } else w) := by
  unfold set_deflection
  rw [List.getElem?_modify]
  rfl

theorem set_deflection_length (l : List (Wing α)) (i : Nat) (d : α) :
    (set_deflection l i d).length = l.length := by
  unfold set_deflection
  exact List.length_modify _ _ _

theorem set_deflection_same (l : List (Wing α)) (i : Nat) (d : α) (hi : i < l.length) :
    ((set_deflection l i d)[i]?).map Wing.deflection = some d := by
  rw [set_deflection_getElem?, List.getElem?_eq_getElem hi]
  simp

theorem set_deflection_other (l : List (Wing α)) (i : Nat) (d : α) (j : Nat) (h : i ≠ j) :
    (set_deflection l i d)[j]? = l[j]? := by
  rw [set_deflection_getElem?]
  cases l[j]? with
  | none => rfl
  | some w => simp [h]

theorem set_deflection_fixed (l : List (Wing α)) (i : Nat) (d : α) (j : Nat)
    (hj : j < (set_deflection l i d).length) :
    ∃ hj2 : j < l.length, (set_deflection l i d)[j].airfoil = l[j].airfoil ∧
      (set_deflection l i d)[j].position = l[j].position ∧
      (set_deflection l i d)[j].area = l[j].area ∧
      (set_deflection l i d)[j].normal = l[j].normal := by
  have hj2 : j < l.length := by rwa [set_deflection_length] at hj
  refine ⟨hj2, ?_⟩
  have h := set_deflection_getElem? l i d j
  rw [List.getElem?_eq_getElem hj, List.getElem?_eq_getElem hj2] at h
  simp only [Option.map_some', Option.some.injEq] at h
  rw [h]
  split_ifs <;> simp

theorem Aircraft.control_mapping_length (ac : Aircraft α RB) :
    ac.control_mapping.length = ac.elements.length := by
  unfold Aircraft.control_mapping
  simp only [set_deflection_length]

theorem Aircraft.control_mapping_fixed (ac : Aircraft α RB) (j : Nat)
    (hj : j < ac.control_mapping.length) :
    ∃ hj2 : j < ac.elements.length,
      ac.control_mapping[j].airfoil = ac.elements[j].airfoil ∧
      ac.control_mapping[j].position = ac.elements[j].position ∧
      ac.control_mapping[j].area = ac.elements[j].area ∧
      ac.control_mapping[j].normal = ac.elements[j].normal := by
  unfold Aircraft.control_mapping at hj ⊢
  simp only at hj ⊢
  obtain ⟨h4, e4⟩ := set_deflection_fixed _ 5 _ j hj
  obtain ⟨h3, e3⟩ := set_deflection_fixed _ 4 _ j h4
  obtain ⟨h2, e2⟩ := set_deflection_fixed _ 2 _ j h3
  obtain ⟨h1, e1⟩ := set_deflection_fixed _ 1 _ j h2
  refine ⟨h1, ?_, ?_, ?_, ?_⟩
  · rw [e4.1, e3.1, e2.1, e1.1]
  · rw [e4.2.1, e3.2.1, e2.2.1, e1.2.1]
  · rw [e4.2.2.1, e3.2.2.1, e2.2.2.1, e1.2.2.1]
  · rw [e4.2.2.2, e3.2.2.2, e2.2.2.2, e1.2.2.2]

theorem Aircraft.control_mapping_deflections (ac : Aircraft α RB)
    (h6 : 6 ≤ ac.elements.length) :
    (ac.control_mapping[1]?).map Wing.deflection = some (ac.joystick.x * 15) ∧
    (ac.control_mapping[2]?).map Wing.deflection = some (-(ac.joystick.x * 15)) ∧
    (ac.control_mapping[4]?).map Wing.deflection = some (-(ac.joystick.z * 5)) ∧
    (ac.control_mapping[5]?).map Wing.deflection = some (ac.joystick.y * 5) := by
  unfold Aircraft.control_mapping
  simp only
  refine ⟨?_, ?_, ?_, ?_⟩
  · rw [set_deflection_other _ 5 _ 1 (by decide), set_deflection_other _ 4 _ 1 (by decide),
      set_deflection_other _ 2 _ 1 (by decide)]
    exact set_deflection_same _ 1 _ (by omega)
  · rw [set_deflection_other _ 5 _ 2 (by decide), set_deflection_other _ 4 _ 2 (by decide)]
    exact set_deflection_same _ 2 _ (by rw [set_deflection_length]; omega)
  · rw [set_deflection_other _ 5 _ 4 (by decide)]
    exact set_deflection_same _ 4 _ (by simp only [set_deflection_length]; omega)
  · exact set_deflection_same _ 5 _ (by simp only [set_deflection_length]; omega)

theorem foldlM_chain {β γ : Type} (f : β → γ → Option β) (l : List γ) (init res : β)
    (h : l.foldlM f init = some res) :
    ∃ rb : Nat → β, rb 0 = init ∧ rb l.length = res ∧
      ∀ k (hk : k < l.length), f (rb k) l[k] = some (rb (k + 1)) := by
  induction l generalizing init with
  | nil =>
    simp only [List.foldlM_nil, pure, Option.some.injEq] at h
    exact ⟨fun _ => init, rfl, h, fun k hk => absurd hk (by simp)⟩
  | cons w ws ih =>
    rw [List.foldlM_cons] at h
    cases hw : f init w with
    | none => rw [hw] at h; simp [bind] at h
    | some b1 =>
      rw [hw] at h
      simp only [bind, Option.bind] at h
      obtain ⟨rb, h0, hlen, hstep⟩ := ih b1 h
      refine ⟨fun k => if k = 0 then init else rb (k - 1), rfl, ?_, ?_⟩
      · simp [hlen]
      · intro k hk
        cases k with
        | zero => simp [hw, h0]
        | succ k =>
          simp only [List.length_cons] at hk
          have := hstep k (by omega)
          simpa using this

theorem foldlM_isSome {β γ : Type} (f : β → γ → Option β) (l : List γ) (init : β)
    (hf : ∀ w ∈ l, ∀ b, ∃ b', f b w = some b') : ∃ res, l.foldlM f init = some res := by
  induction l generalizing init with
  | nil => exact ⟨init, rfl⟩
  | cons w ws ih =>
    obtain ⟨b1, hb1⟩ := hf w (List.mem_cons_self _ _) init
    obtain ⟨res, hres⟩ := ih b1 (fun w' hw' b => hf w' (List.mem_cons_of_mem _ hw') b)
    refine ⟨res, ?_⟩
    rw [List.foldlM_cons, hb1]
    exact hres

theorem Aircraft.update_of_surfaces (E : Env α) (ops : RigidBodyOps α RB) (ac : Aircraft α RB)
    (dt : α) (rbn : Traced α RB)
    (h : ac.control_mapping.foldlM (fun rigid_body wing => wing.apply_forces E ops rigid_body)
      ac.rigid_body = some rbn) :
    ∃ r, ac.update E ops dt = some r ∧ r.1.elements = ac.control_mapping ∧
      r.1.engine = ac.engine ∧ r.1.joystick = ac.joystick ∧
      r.1.rigid_body = Traced.update ops
        (Traced.add_relative_force ops rbn ⟨ac.engine.thrust * ac.engine.throttle, 0, 0⟩) dt := by
  unfold Aircraft.update
  simp only [h, Engine.apply_forces]
  split_ifs <;> exact ⟨_, rfl, rfl, rfl, rfl, rfl⟩

theorem Aircraft.update_surfaces (E : Env α) (ops : RigidBodyOps α RB) (ac : Aircraft α RB)
    (dt : α) (r : Aircraft α RB × Option (Telemetry α)) (h : ac.update E ops dt = some r) :
    ∃ rbn, ac.control_mapping.foldlM
      (fun rigid_body wing => wing.apply_forces E ops rigid_body) ac.rigid_body = some rbn := by
  cases hf : ac.control_mapping.foldlM
      (fun rigid_body wing => wing.apply_forces E ops rigid_body) ac.rigid_body with
  | none =>
    unfold Aircraft.update at h
    simp only [hf] at h
    exact absurd h (by simp)
  | some rbn => exact ⟨rbn, rfl⟩

theorem Aircraft.update_isSome (E : Env α) (ops : RigidBodyOps α RB) (ac : Aircraft α RB)
    (dt : α) (hne : ∀ w ∈ ac.elements, w.airfoil.data ≠ []) :
    ∃ r, ac.update E ops dt = some r := by
  have hcm : ∀ w ∈ ac.control_mapping, w.airfoil.data ≠ [] := by
    intro w hw
    obtain ⟨j, hj, rfl⟩ := List.getElem_of_mem hw
    obtain ⟨hj2, e, _⟩ := ac.control_mapping_fixed j hj
    rw [e]
    exact hne _ (List.getElem_mem _)
  obtain ⟨rbn, hrbn⟩ := foldlM_isSome
    (fun rigid_body wing => Wing.apply_forces E ops wing rigid_body) ac.control_mapping
    ac.rigid_body (fun w hw b => w.apply_forces_isSome E ops b (hcm w hw))
  obtain ⟨r, hr, _⟩ := ac.update_of_surfaces E ops dt rbn hrbn
  exact ⟨r, hr⟩

theorem Aircraft.control_mapping_other (ac : Aircraft α RB) (j : Nat)
    (h1 : j ≠ 1) (h2 : j ≠ 2) (h4 : j ≠ 4) (h5 : j ≠ 5) :
    ac.control_mapping[j]? = ac.elements[j]? := by
  unfold Aircraft.control_mapping
  simp only
  rw [set_deflection_other _ 5 _ j (Ne.symm h5), set_deflection_other _ 4 _ j (Ne.symm h4),
    set_deflection_other _ 2 _ j (Ne.symm h2), set_deflection_other _ 1 _ j (Ne.symm h1)]

/-- C2: for an aircraft with at least 6 surfaces and any joystick vector (roll, yaw,
pitch), whenever `update(dt)` returns, the deflections are `elements[1] = roll * 15`,
`elements[2] = -(roll * 15)`, `elements[4] = -(pitch * 5)`, `elements[5] = yaw * 5`,
whatever they were before; and `update(dt)` does return when no surface has an empty
airfoil table. -/
theorem update_control_mapping (E : Env α) (ops : RigidBodyOps α RB) (ac : Aircraft α RB)
    (dt : α) (h6 : 6 ≤ ac.elements.length) :
    (∀ r, ac.update E ops dt = some r →
      (r.1.elements[1]?).map Wing.deflection = some (ac.joystick.x * 15) ∧
      (r.1.elements[2]?).map Wing.deflection = some (-(ac.joystick.x * 15)) ∧
      (r.1.elements[4]?).map Wing.deflection = some (-(ac.joystick.z * 5)) ∧
      (r.1.elements[5]?).map Wing.deflection = some (ac.joystick.y * 5)) ∧
    ((∀ w ∈ ac.elements, w.airfoil.data ≠ []) → ∃ r, ac.update E ops dt = some r) := by
  refine ⟨?_, ac.update_isSome E ops dt⟩
  intro r hr
  obtain ⟨rbn, hrbn⟩ := ac.update_surfaces E ops dt r hr
  obtain ⟨r2, hr2, hel, _⟩ := ac.update_of_surfaces E ops dt rbn hrbn
  rw [hr] at hr2
  cases Option.some.inj hr2
  rw [hel]
  exact ac.control_mapping_deflections h6

/-- Witness for C2 on the example aircraft: roll 1 gives +15 and -15 on the ailerons,
pitch 1 gives -5 on the elevator, yaw 0 gives 0 on the rudder. -/
theorem update_control_mapping_witness :
    ∃ r, example_aircraft.update Env.rational RigidBody.ops (1 / 60) = some r ∧
      (r.1.elements[1]?).map Wing.deflection = some (15 : ℚ) ∧
      (r.1.elements[2]?).map Wing.deflection = some (-15 : ℚ) ∧
      (r.1.elements[4]?).map Wing.deflection = some (-5 : ℚ) ∧
      (r.1.elements[5]?).map Wing.deflection = some (0 : ℚ) := by
  have T := update_control_mapping Env.rational RigidBody.ops example_aircraft (1 / 60)
    (by simp only [example_aircraft, List.length_map, List.length_range, le_refl])
  obtain ⟨r, hr⟩ := T.2 (by
    intro w hw
    simp only [example_aircraft, List.mem_map] at hw
    obtain ⟨i, _, rfl⟩ := hw
    simp [example_wing, Wing.construct, example_airfoil])
  obtain ⟨d1, d2, d4, d5⟩ := T.1 r hr
  refine ⟨r, hr, ?_, ?_, ?_, ?_⟩
  · simpa [example_aircraft] using d1
  · simpa [example_aircraft] using d2
  · simpa [example_aircraft] using d4
  · simpa [example_aircraft] using d5

/-- C9: for an aircraft with at least 6 surfaces, whenever `update(dt)` returns, the
calls made on the rigid body are, in this order: for `k = 0, ..., n - 1` the calls of
`apply_forces` of the `k`-th surface (its velocity query and at most one
`add_force_at_point`, both at that surface's position), the surface carrying the
deflection assigned from the joystick in this same call; then the engine's
`add_relative_force`; then one `rigid_body.update(dt)` as the last call. `update(dt)` does
return when no surface has an empty airfoil table. -/
theorem update_call_order (E : Env α) (ops : RigidBodyOps α RB) (ac : Aircraft α RB)
    (dt : α) (h6 : 6 ≤ ac.elements.length) :
    (∀ r, ac.update E ops dt = some r →
      ∃ rb : Nat → Traced α RB,
        rb 0 = ac.rigid_body ∧
        (∀ k (hk : k < ac.elements.length), ∃ w,
          ac.control_mapping[k]? = some w ∧
          r.1.elements[k]? = some w ∧
          w.position = ac.elements[k].position ∧
          (k ≠ 1 → k ≠ 2 → k ≠ 4 → k ≠ 5 → w = ac.elements[k]) ∧
          w.apply_forces E ops (rb k) = some (rb (k + 1)) ∧
          ((rb (k + 1)).calls = (rb k).calls ++ [Call.get_point_velocity w.position] ∨
            ∃ force, (rb (k + 1)).calls = (rb k).calls ++
              [Call.get_point_velocity w.position, Call.add_force_at_point force w.position])) ∧
        r.1.rigid_body.calls = (rb ac.elements.length).calls ++
          [Call.add_relative_force ⟨ac.engine.thrust * ac.engine.throttle, 0, 0⟩,
           Call.update dt] ∧
        r.1.rigid_body.state = ops.update
          (ops.add_relative_force (rb ac.elements.length).state
            ⟨ac.engine.thrust * ac.engine.throttle, 0, 0⟩) dt) ∧
    ((ac.control_mapping[1]?).map Wing.deflection = some (ac.joystick.x * 15) ∧
      (ac.control_mapping[2]?).map Wing.deflection = some (-(ac.joystick.x * 15)) ∧
      (ac.control_mapping[4]?).map Wing.deflection = some (-(ac.joystick.z * 5)) ∧
      (ac.control_mapping[5]?).map Wing.deflection = some (ac.joystick.y * 5)) ∧
    ((∀ w ∈ ac.elements, w.airfoil.data ≠ []) → ∃ r, ac.update E ops dt = some r) := by
  refine ⟨?_, ac.control_mapping_deflections h6, ac.update_isSome E ops dt⟩
  intro r hr
  obtain ⟨rbn, hrbn⟩ := ac.update_surfaces E ops dt r hr
  obtain ⟨r2, hr2, hel, _, _, hrb⟩ := ac.update_of_surfaces E ops dt rbn hrbn
  rw [hr] at hr2
  cases Option.some.inj hr2
  obtain ⟨rb, h0, hlen, hstep⟩ := foldlM_chain _ _ _ _ hrbn
  rw [ac.control_mapping_length] at hlen
  refine ⟨rb, h0, ?_, ?_, ?_⟩
  · intro k hk
    have hk2 : k < ac.control_mapping.length := by rw [ac.control_mapping_length]; exact hk
    obtain ⟨_, _, hpos, _⟩ := ac.control_mapping_fixed k hk2
    have hs := hstep k hk2
    refine ⟨ac.control_mapping[k], List.getElem?_eq_getElem hk2, ?_, hpos, ?_, hs,
      Wing.apply_forces_calls E ops _ _ _ hs⟩
    · rw [hel]
      exact List.getElem?_eq_getElem hk2
    · intro h1 h2 h4 h5
      have := ac.control_mapping_other k h1 h2 h4 h5
      rw [List.getElem?_eq_getElem hk2, List.getElem?_eq_getElem hk] at this
      exact Option.some.inj this
  · rw [hrb, hlen]
    simp [Traced.update, Traced.add_relative_force]
  · rw [hrb, hlen]
    rfl

/-- Witness for C9 on the example aircraft: the update returns and the trace of the rigid
body ends with the engine's force and the integration call. -/
theorem update_call_order_witness :
    ∃ r, example_aircraft.update Env.rational RigidBody.ops (1 / 60) = some r ∧
      ∃ before, r.1.rigid_body.calls = before ++
        [Call.add_relative_force ⟨100 * (1 / 2), 0, 0⟩, Call.update (1 / 60)] := by
  have T := update_call_order Env.rational RigidBody.ops example_aircraft (1 / 60)
    (by simp only [example_aircraft, List.length_map, List.length_range, le_refl])
  obtain ⟨r, hr⟩ := T.2.2 (by
    intro w hw
    simp only [example_aircraft, List.mem_map] at hw
    obtain ⟨i, _, rfl⟩ := hw
    simp [example_wing, Wing.construct, example_airfoil])
  obtain ⟨rb, _, _, hcalls, _⟩ := T.1 r hr
  exact ⟨r, hr, _, hcalls⟩

/-! ## Theorems: the clipmap mesh -/

end Theorems

/-! ## Theorems: the lift direction, over the reals -/

theorem Vec3.dot_self_nonneg (v : Vec3 ℝ) : 0 ≤ Vec3.dot v v := by
  simp only [Vec3.dot]
  nlinarith [mul_self_nonneg v.x, mul_self_nonneg v.y, mul_self_nonneg v.z]

theorem Vec3.dot_self_pos (v : Vec3 ℝ) (hv : v ≠ ⟨0, 0, 0⟩) : 0 < Vec3.dot v v := by
  rcases lt_or_eq_of_le (Vec3.dot_self_nonneg v) with h | h
  · exact h
  · exfalso
    apply hv
    simp only [Vec3.dot] at h
    have hx : v.x = 0 := by nlinarith [mul_self_nonneg v.x, mul_self_nonneg v.y, mul_self_nonneg v.z]
    have hy : v.y = 0 := by nlinarith [mul_self_nonneg v.x, mul_self_nonneg v.y, mul_self_nonneg v.z]
    have hz : v.z = 0 := by nlinarith [mul_self_nonneg v.x, mul_self_nonneg v.y, mul_self_nonneg v.z]
    obtain ⟨x, y, z⟩ := v
    simp only at hx hy hz
    rw [hx, hy, hz]

theorem Vec3.dot_normalize_self (v : Vec3 ℝ) (hv : v ≠ ⟨0, 0, 0⟩) :
    Vec3.dot (Vec3.normalize Real.sqrt v) (Vec3.normalize Real.sqrt v) = 1 := by
  have hpos := Vec3.dot_self_pos v hv
  have hs : 0 < Real.sqrt (Vec3.dot v v) := Real.sqrt_pos.mpr hpos
  have hsq : Real.sqrt (Vec3.dot v v) * Real.sqrt (Vec3.dot v v) = Vec3.dot v v :=
    Real.mul_self_sqrt hpos.le
  have key : Vec3.dot (Vec3.normalize Real.sqrt v) (Vec3.normalize Real.sqrt v)
      = Vec3.dot v v * ((1 / Real.sqrt (Vec3.dot v v)) * (1 / Real.sqrt (Vec3.dot v v))) := by
    simp only [Vec3.normalize, Vec3.scale, Vec3.dot]
    ring
  rw [key, ← hsq]
  field_simp

theorem Vec3.cross_cross_unit (d n : Vec3 ℝ) (hd : Vec3.dot d d = 1) :
    Vec3.cross (Vec3.cross d n) d = Vec3.add n (Vec3.neg (Vec3.scale d (Vec3.dot n d))) := by
  simp only [Vec3.dot] at hd
  simp only [Vec3.cross, Vec3.add, Vec3.neg, Vec3.scale, Vec3.dot, Vec3.mk.injEq]
  refine ⟨?_, ?_, ?_⟩
  · linear_combination n.x * hd
  · linear_combination n.y * hd
  · linear_combination n.z * hd

/-- C8: over the reals, for a non-zero local velocity `v` and a normal `n` not parallel to
`v`, with `d = normalize(-v)`, the lift direction `normalize(cross(cross(d, n), d))` is a
unit vector, is orthogonal to `d`, and equals `normalize(n - dot(n, d) * d)`. -/
theorem lift_direction_perpendicular (v n : Vec3 ℝ) (hv : v ≠ ⟨0, 0, 0⟩)
    (hvn : Vec3.cross v n ≠ ⟨0, 0, 0⟩) :
    Vec3.length Real.sqrt (lift_direction Real.sqrt (drag_direction Real.sqrt v) n) = 1 ∧
    Vec3.dot (lift_direction Real.sqrt (drag_direction Real.sqrt v) n)
      (drag_direction Real.sqrt v) = 0 ∧
    lift_direction Real.sqrt (drag_direction Real.sqrt v) n =
      Vec3.normalize Real.sqrt
        (Vec3.add n (Vec3.neg (Vec3.scale (drag_direction Real.sqrt v)
          (Vec3.dot n (drag_direction Real.sqrt v))))) := by
  have hnv : Vec3.neg v ≠ ⟨0, 0, 0⟩ := by
    intro h
    apply hv
    cases v
    simp only [Vec3.neg, Vec3.mk.injEq, neg_eq_zero] at h
    simp [h.1, h.2.1, h.2.2]
  have hd : Vec3.dot (drag_direction Real.sqrt v) (drag_direction Real.sqrt v) = 1 :=
    Vec3.dot_normalize_self _ hnv
  have hw := Vec3.cross_cross_unit (drag_direction Real.sqrt v) n hd
  -- the perpendicular component is not zero, because `n` is not parallel to `v`
  have hw0 : Vec3.cross (Vec3.cross (drag_direction Real.sqrt v) n)
      (drag_direction Real.sqrt v) ≠ ⟨0, 0, 0⟩ := by
    intro h0
    apply hvn
    have hr : 0 < Real.sqrt (Vec3.dot (Vec3.neg v) (Vec3.neg v)) :=
      Real.sqrt_pos.mpr (Vec3.dot_self_pos _ hnv)
    have hcr : Vec3.cross (drag_direction Real.sqrt v) n = ⟨0, 0, 0⟩ := by
      have e : Vec3.cross (drag_direction Real.sqrt v)
          (Vec3.cross (Vec3.cross (drag_direction Real.sqrt v) n) (drag_direction Real.sqrt v))
          = Vec3.cross (drag_direction Real.sqrt v) n := by
        simp only [Vec3.dot] at hd
        simp only [Vec3.cross, Vec3.mk.injEq]
        refine ⟨?_, ?_, ?_⟩
        · linear_combination
            ((drag_direction Real.sqrt v).y * n.z - n.y * (drag_direction Real.sqrt v).z) * hd
        · linear_combination
            ((drag_direction Real.sqrt v).z * n.x - n.z * (drag_direction Real.sqrt v).x) * hd
        · linear_combination
            ((drag_direction Real.sqrt v).x * n.y - n.x * (drag_direction Real.sqrt v).y) * hd
      rw [h0] at e
      rw [← e]
      simp [Vec3.cross]
    simp only [drag_direction, Vec3.normalize, Vec3.scale, Vec3.cross, Vec3.neg,
      Vec3.mk.injEq] at hcr
    obtain ⟨h1, h2, h3⟩ := hcr
    have hr' : (1 / Real.sqrt (Vec3.dot (Vec3.neg v) (Vec3.neg v))) ≠ 0 :=
      one_div_ne_zero hr.ne'
    simp only [Vec3.neg] at hr'
    simp only [Vec3.cross, Vec3.mk.injEq]
    refine ⟨?_, ?_, ?_⟩
    · have : (v.y * n.z - n.y * v.z) *
          (1 / Real.sqrt (Vec3.dot ⟨-v.x, -v.y, -v.z⟩ ⟨-v.x, -v.y, -v.z⟩)) = 0 := by
        linear_combination -h1
      exact (mul_eq_zero.mp this).resolve_right hr'
    · have : (v.z * n.x - n.z * v.x) *
          (1 / Real.sqrt (Vec3.dot ⟨-v.x, -v.y, -v.z⟩ ⟨-v.x, -v.y, -v.z⟩)) = 0 := by
        linear_combination -h2
      exact (mul_eq_zero.mp this).resolve_right hr'
    · have : (v.x * n.y - n.x * v.y) *
          (1 / Real.sqrt (Vec3.dot ⟨-v.x, -v.y, -v.z⟩ ⟨-v.x, -v.y, -v.z⟩)) = 0 := by
        linear_combination -h3
      exact (mul_eq_zero.mp this).resolve_right hr'
  have hunit := Vec3.dot_normalize_self _ hw0
  refine ⟨?_, ?_, ?_⟩
  · unfold Vec3.length lift_direction
    rw [hunit, Real.sqrt_one]
  · unfold lift_direction
    rw [hw]
    simp only [Vec3.dot] at hd
    simp only [Vec3.normalize, Vec3.scale, Vec3.dot, Vec3.add, Vec3.neg]
    generalize (1 / Real.sqrt _) = k
    linear_combination (-(k * (n.x * (drag_direction Real.sqrt v).x +
      n.y * (drag_direction Real.sqrt v).y + n.z * (drag_direction Real.sqrt v).z))) * hd
  · unfold lift_direction
    rw [hw]

/-- Witness for C8: flow along `-x` (velocity `(-1, 0, 0)`) and normal `(0, 1, 0)`. -/
theorem lift_direction_perpendicular_witness :
    Vec3.length Real.sqrt
      (lift_direction Real.sqrt (drag_direction Real.sqrt ⟨-1, 0, 0⟩) ⟨0, 1, 0⟩) = 1 ∧
    Vec3.dot (lift_direction Real.sqrt (drag_direction Real.sqrt ⟨-1, 0, 0⟩) ⟨0, 1, 0⟩)
      (drag_direction Real.sqrt ⟨-1, 0, 0⟩) = 0 :=
  ⟨(lift_direction_perpendicular ⟨-1, 0, 0⟩ ⟨0, 1, 0⟩ (by simp) (by simp [Vec3.cross])).1,
   (lift_direction_perpendicular ⟨-1, 0, 0⟩ ⟨0, 1, 0⟩ (by simp) (by simp [Vec3.cross])).2.1⟩

end Flightsim
